import Mathlib

/-!
Verification of the allocation and redistribution engine of the
`protocol_fee_allocator_v2` repository, as a shallow embedding in Lean 4.

Python `Decimal` values are modelled as exact rationals (`ℚ`); the
`Decimal("1E-20")` dust threshold of `return_zero_if_dust` is the rational
`1 / 10 ^ 20`.  Token and pool addresses (fixed-width lowercase hex strings in
the source, sorted lexicographically) are modelled as natural numbers, whose
order coincides with the lexicographic order of fixed-width hex strings.
Fallible code paths (Python raising `decimal.DivisionByZero`) are modelled
with `Option`: `none` is the run aborting with an exception.
-/

namespace FeeAlloc

/-- Dust threshold of the `return_zero_if_dust` decorator
(`decorators.py`, `threshold=Decimal("1E-20")`). -/
def dustThreshold : ℚ := 1 / 10 ^ 20

/-- Result guard of `return_zero_if_dust` (`decorators.py` line 36):
`return result if result > threshold else Decimal(0)`. -/
def dustResult (r : ℚ) : ℚ := if dustThreshold < r then r else 0

/-! ## Pool earnings calculator (`accounting/core_pools.py`) -/

/-- One entry of `PoolSnapshot.tokens`: token address plus the cumulative
protocol fee paid in that token (`paidProtocolFees`). -/
structure TokenFee where
  address : ℕ
  paidProtocolFees : ℚ
deriving DecidableEq, Repr

/-- A pool snapshot: cumulative protocol fee paid in BPT plus per-token fees. -/
structure PoolSnapshot where
  totalProtocolFeePaidInBPT : ℚ
  tokens : List TokenFee
deriving DecidableEq, Repr

/-- A TWAP price entry for one token (`bal_tools.models.TWAPResult`). -/
structure TWAPResult where
  address : ℕ
  twap_price : ℚ
deriving DecidableEq, Repr

/-- `CorePool.__post_init__` sorts the token lists by address
(`self.start_snap.tokens.sort(key=lambda x: x.address)`).  Python `list.sort`
is a stable ascending sort; on the address keys used here any stable
ascending sort agrees, and we use insertion sort. -/
def sortTokens (l : List TokenFee) : List TokenFee :=
  l.insertionSort (fun a b => a.address ≤ b.address)

/-- `__post_init__` sorting of `tokens_price` by address. -/
def sortPrices (l : List TWAPResult) : List TWAPResult :=
  l.insertionSort (fun a b => a.address ≤ b.address)

/-- `CorePool.earned_bpt_fee`: difference of the cumulative BPT fee counters. -/
def earned_bpt_fee (s e : PoolSnapshot) : ℚ :=
  e.totalProtocolFeePaidInBPT - s.totalProtocolFeePaidInBPT

/-- `CorePool.earned_bpt_fee_usd`, including its `return_zero_if_dust()`
decorator: the decorator first short-circuits to `0` if any `Decimal` among
the method's referenced attributes (`bpt_price`, `earned_bpt_fee`) is below
the threshold, then applies the result guard to `bpt_price * earned_bpt_fee`. -/
def earned_bpt_fee_usd (bpt_price : ℚ) (s e : PoolSnapshot) : ℚ :=
  if bpt_price < dustThreshold ∨ earned_bpt_fee s e < dustThreshold then 0
  else dustResult (bpt_price * earned_bpt_fee s e)

/-- The pairs produced inside `CorePool.earned_tokens_fee`: the (already
sorted) start and end token lists are `zip`ped positionally and each pair is
mapped to `(end_token.address, end.paidProtocolFees - start.paidProtocolFees)`.
Python's `zip` silently truncates to the shorter list. -/
def tokenFeePairs (s e : PoolSnapshot) : List (ℕ × ℚ) :=
  ((sortTokens s.tokens).zip (sortTokens e.tokens)).map
    (fun se => (se.2.address, se.2.paidProtocolFees - se.1.paidProtocolFees))

/-- Python `dict` insertion: an existing key is overwritten in place, a new
key is appended at the end. -/
def dictInsert : List (ℕ × ℚ) → ℕ × ℚ → List (ℕ × ℚ)
  | [], kv => [kv]
  | (k, v) :: rest, kv =>
      if k = kv.1 then (k, kv.2) :: rest else (k, v) :: dictInsert rest kv

/-- Building a Python `dict` from a sequence of key/value pairs. -/
def dictBuild (l : List (ℕ × ℚ)) : List (ℕ × ℚ) := l.foldl dictInsert []

/-- `CorePool.earned_tokens_fee`: the dict comprehension over the zipped,
sorted token lists. -/
def earned_tokens_fee (s e : PoolSnapshot) : List (ℕ × ℚ) :=
  dictBuild (tokenFeePairs s e)

/-- `CorePool.earned_tokens_fee_usd`: zip the dict's values with the sorted
`tokens_price` list and add `token.twap_price * fee` for each strictly
positive fee delta. -/
def earned_tokens_fee_usd (tokens_price : List TWAPResult) (s e : PoolSnapshot) : ℚ :=
  ((((earned_tokens_fee s e).map Prod.snd).zip (sortPrices tokens_price)).map
    (fun fp => if 0 < fp.1 then fp.2.twap_price * fp.1 else 0)).sum

/-- `CorePool.total_earned_fees_usd = earned_bpt_fee_usd + earned_tokens_fee_usd`. -/
def total_earned_fees_usd (bpt_price : ℚ) (tokens_price : List TWAPResult)
    (s e : PoolSnapshot) : ℚ :=
  earned_bpt_fee_usd bpt_price s e + earned_tokens_fee_usd tokens_price s e

/-- Whether two snapshots cover the same token (multi)set: equality of the
sorted address lists. -/
def sameTokenSet (s e : PoolSnapshot) : Bool :=
  decide (((sortTokens s.tokens).map TokenFee.address)
        = ((sortTokens e.tokens).map TokenFee.address))

/-- `CorePool.earned_fee_share_of_chain_usd` with its `return_zero_if_dust()`
decorator.  The decorator's pre-check inspects the `Decimal`-valued attributes
referenced by the method body — here only the pool's own
`total_earned_fees_usd` — and returns `0` before dividing when it is below the
threshold.  Otherwise the body divides by `chain.total_earned_fees_usd`;
Python `Decimal` division by zero raises, modelled as `none`. -/
def earned_fee_share_of_chain_usd (total chainTotal : ℚ) : Option ℚ :=
  if total < dustThreshold then some 0
  else if chainTotal = 0 then none
  else some (dustResult (total / chainTotal))

/-- The global fee configuration fields used by the core
(`models.py`, `GlobalFeeConfig`). -/
structure FeeConfig where
  min_aura_incentive : ℚ
  min_vote_incentive_amount : ℚ
  dao_share_pct : ℚ
  vebal_share_pct : ℚ
deriving DecidableEq, Repr

/-- `CorePool.total_to_incentives_usd` with its decorator
(`any_or_all="all"`; the only `Decimal` attribute it inspects is the share). -/
def total_to_incentives_usd (cfg : FeeConfig) (fees_collected share : ℚ) : ℚ :=
  if share < dustThreshold then 0
  else dustResult (share * (fees_collected * (1 - cfg.dao_share_pct - cfg.vebal_share_pct)))

/-- `CorePool.to_aura_incentives_usd` with its decorator (pre-check on
`total_to_incentives_usd`). -/
def to_aura_incentives_usd (total aura_vebal_share : ℚ) : ℚ :=
  if total < dustThreshold then 0 else dustResult (total * aura_vebal_share)

/-- `CorePool.to_bal_incentives_usd` with its decorator. -/
def to_bal_incentives_usd (total aura_vebal_share : ℚ) : ℚ :=
  if total < dustThreshold then 0 else dustResult (total * (1 - aura_vebal_share))

/-- `CorePool.to_dao_usd` with its decorator (pre-check on the share). -/
def to_dao_usd (cfg : FeeConfig) (fees_collected share : ℚ) : ℚ :=
  if share < dustThreshold then 0
  else dustResult (share * fees_collected * cfg.dao_share_pct)

/-- `CorePool.to_vebal_usd` with its decorator. -/
def to_vebal_usd (cfg : FeeConfig) (fees_collected share : ℚ) : ℚ :=
  if share < dustThreshold then 0
  else dustResult (share * fees_collected * cfg.vebal_share_pct)

/-- The formula claimed by the specification for the pool earnings calculator:
an unconditional LP-fee term `(end.lp_fee_paid − start.lp_fee_paid) × lp_price`
plus, for each address-matched token pair with strictly positive fee delta,
`delta × twap_price`.  Stated over the sorted, zipped lists so it can be
compared with the implementation. -/
def claimedTotalEarnedFeesUsd (bpt_price : ℚ) (tokens_price : List TWAPResult)
    (s e : PoolSnapshot) : ℚ :=
  (e.totalProtocolFeePaidInBPT - s.totalProtocolFeePaidInBPT) * bpt_price +
  (List.map
    (fun x => if 0 < x.1.2.paidProtocolFees - x.1.1.paidProtocolFees
      then (x.1.2.paidProtocolFees - x.1.1.paidProtocolFees) * x.2.twap_price else 0)
    (((sortTokens s.tokens).zip (sortTokens e.tokens)).zip (sortPrices tokens_price))).sum

/-! ## Redistribution engine (`fee_allocator.py`)

`FeeAllocator.redistribute_fees` and `FeeAllocator._handle_aura_min` operate
on each chain's list of pool objects, mutating per-pool allocation fields in
place.  A pool's mutable allocation state is modelled as a record and each
in-place pass as a function on the list of records. -/

/-- The override's `voting_pool` attribute (`overrides.py`); the engine only
tests it for equality with the string `"bal"`. -/
inductive VotingPool where
  | bal
  | aura
deriving DecidableEq, Repr

/-- The mutable allocation state of one pool, as read and written by
`FeeAllocator.redistribute_fees` / `_handle_aura_min`. -/
structure PoolAlloc where
  pool_id : ℕ
  override : Option VotingPool
  total_earned_fees_usd_twap : ℚ
  earned_fee_share_of_chain : ℚ
  total_to_incentives_usd : ℚ
  to_aura_incentives_usd : ℚ
  to_bal_incentives_usd : ℚ
  to_dao_usd : ℚ
  to_vebal_usd : ℚ
  redirected_incentives_usd : ℚ
deriving DecidableEq, Repr

/-- `redistribute_fees` lines 73-77: zero a below-threshold pool, decrementing
its redirect counter by the amount removed. -/
def zeroBelow (p : PoolAlloc) : PoolAlloc :=
  { p with
    redirected_incentives_usd := p.redirected_incentives_usd - p.total_to_incentives_usd
    to_aura_incentives_usd := 0
    to_bal_incentives_usd := 0
    total_to_incentives_usd := 0 }

/-- `redistribute_fees` lines 79-85: credit an eligible pool with its
earned-fee-weighted share `total_fees_to_redistribute * (twap / total_weight)`,
split between the markets by `aura_vebal_share`. -/
def receiveShare (R W s : ℚ) (p : PoolAlloc) : PoolAlloc :=
  let t := R * (p.total_earned_fees_usd_twap / W)
  { p with
    total_to_incentives_usd := p.total_to_incentives_usd + t
    redirected_incentives_usd := p.redirected_incentives_usd + t
    to_aura_incentives_usd := p.to_aura_incentives_usd + t * s
    to_bal_incentives_usd := p.to_bal_incentives_usd + t * (1 - s) }

/-- `redistribute_fees` lines 87-94: recompute each pool's share of the chain
and the DAO / veBAL amounts against the post-redistribution totals. -/
def recomputeShares (fees dao_pct vebal_pct : ℚ) (pools : List PoolAlloc) : List PoolAlloc :=
  let T := (pools.map (·.total_to_incentives_usd)).sum
  pools.map fun p =>
    if 0 < T then
      { p with
        earned_fee_share_of_chain := p.total_to_incentives_usd / T
        to_dao_usd := p.total_to_incentives_usd / T * fees * dao_pct
        to_vebal_usd := p.total_to_incentives_usd / T * fees * vebal_pct }
    else
      { p with
        earned_fee_share_of_chain := 0
        to_dao_usd := 0
        to_vebal_usd := 0 }

/-- `redistribute_fees` line 64: `pools_to_redistribute`. -/
def poolsToRedistribute (m : ℚ) (pools : List PoolAlloc) : List PoolAlloc :=
  pools.filter fun p => decide (p.total_to_incentives_usd < m)

/-- `redistribute_fees` line 65: `pools_to_receive`. -/
def poolsToReceive (m : ℚ) (pools : List PoolAlloc) : List PoolAlloc :=
  pools.filter fun p => !decide (p.total_to_incentives_usd < m)

/-- `redistribute_fees` line 70: `total_fees_to_redistribute`. -/
def totalFeesToRedistribute (m : ℚ) (pools : List PoolAlloc) : ℚ :=
  ((poolsToRedistribute m pools).map (·.total_to_incentives_usd)).sum

/-- `redistribute_fees` line 71: `total_weight`. -/
def totalWeight (m : ℚ) (pools : List PoolAlloc) : ℚ :=
  ((poolsToReceive m pools).map (·.total_earned_fees_usd_twap)).sum

/-- Stage 1 of `redistribute_fees` (lines 62-94) for one chain.  When
`pools_to_receive` is empty the chain is skipped (`continue`).  Otherwise the
receive loop divides every eligible pool's weight by `total_weight`; a zero
`total_weight` makes Python's `Decimal` division raise, modelled as `none`. -/
def redistributeStage1 (m s fees dao_pct vebal_pct : ℚ) (pools : List PoolAlloc) :
    Option (List PoolAlloc) :=
  if (poolsToReceive m pools).isEmpty then some pools
  else
    let W := totalWeight m pools
    if W = 0 then none
    else
      let R := totalFeesToRedistribute m pools
      some (recomputeShares fees dao_pct vebal_pct
        (pools.map fun p =>
          if p.total_to_incentives_usd < m then zeroBelow p else receiveShare R W s p))

/-- `_handle_aura_min` lines 118-124: a pool below the active floor, or whose
override forces the "bal" market, moves its whole aura incentive to bal. -/
def sweep (floor : ℚ) (p : PoolAlloc) : PoolAlloc :=
  if p.to_aura_incentives_usd < floor ∨ p.override = some VotingPool.bal then
    { p with
      to_bal_incentives_usd := p.to_bal_incentives_usd + p.to_aura_incentives_usd
      to_aura_incentives_usd := 0 }
  else p

/-- The chain-level `debt_to_aura` accumulated while sweeping: the sum of the
swept pools' (pre-sweep) aura incentives. -/
def auraDebt (floor : ℚ) (pools : List PoolAlloc) : ℚ :=
  ((pools.filter fun p =>
      decide (p.to_aura_incentives_usd < floor) || decide (p.override = some VotingPool.bal)).map
    (·.to_aura_incentives_usd)).sum

/-- `_handle_aura_min` lines 140-144: a pool of `pools_over_min` repays
`min(amount_per_pool, to_bal_incentives_usd)` from bal to aura. -/
def repayPool (share floor : ℚ) (p : PoolAlloc) : PoolAlloc :=
  if floor ≤ p.to_aura_incentives_usd then
    { p with
      to_aura_incentives_usd := p.to_aura_incentives_usd + min share p.to_bal_incentives_usd
      to_bal_incentives_usd := p.to_bal_incentives_usd - min share p.to_bal_incentives_usd }
  else p

/-- One invocation of `FeeAllocator._handle_aura_min` (lines 114-150) for one
chain, with the active floor already computed from the buffer. -/
def handleAuraMin (floor : ℚ) (pools : List PoolAlloc) : List PoolAlloc :=
  let pools1 := pools.map (sweep floor)
  let debt := auraDebt floor pools
  if debt = 0 then pools1
  else
    let n := pools1.countP fun p => decide (floor ≤ p.to_aura_incentives_usd)
    if n = 0 then pools1
    else pools1.map (repayPool (debt / (n : ℚ)) floor)

/-- The two stage-2 invocations at the end of `redistribute_fees` (lines
96-97): first with `buffer=0.25`, i.e. floor `min_aura_incentive * (1 - 0.25)`,
then with the strict floor. -/
def stage2 (min_aura : ℚ) (pools : List PoolAlloc) : List PoolAlloc :=
  handleAuraMin min_aura (handleAuraMin (min_aura * (1 - 25 / 100)) pools)

/-- The whole of `redistribute_fees` for one chain: stage 1 (with the
share/DAO/veBAL recompute) followed by the two `_handle_aura_min` invocations.
The source interleaves chains (stage 1 for every chain, then each stage-2
invocation for every chain); per chain the composition is the same. -/
def redistributeFees (m s fees dao_pct vebal_pct min_aura : ℚ) (pools : List PoolAlloc) :
    Option (List PoolAlloc) :=
  (redistributeStage1 m s fees dao_pct vebal_pct pools).map (stage2 min_aura)

/-! ## Specification-level statements

The following `Prop`-valued definitions transcribe the behaviour the
specification ascribes to the engine; the claim theorems below relate the
code embeddings to them. -/

/-- What stage 1 is specified to do to a single pool, given the chain-level
aggregates `R = total removed from below-threshold pools` and
`W = sum of eligible pools' earned fees`: a below-threshold pool is zeroed
with its redirect counter decremented by the amount removed; an eligible pool
receives the earned-fee-weighted share of the removed amount on its total,
redirect, market-a and market-b fields. -/
def Stage1PoolSpec (m s R W : ℚ) (p q : PoolAlloc) : Prop :=
  (p.total_to_incentives_usd < m →
    q.total_to_incentives_usd = 0 ∧ q.to_aura_incentives_usd = 0 ∧
    q.to_bal_incentives_usd = 0 ∧
    q.redirected_incentives_usd
      = p.redirected_incentives_usd - p.total_to_incentives_usd) ∧
  (¬ p.total_to_incentives_usd < m →
    q.total_to_incentives_usd
      = p.total_to_incentives_usd + R * (p.total_earned_fees_usd_twap / W) ∧
    q.redirected_incentives_usd
      = p.redirected_incentives_usd + R * (p.total_earned_fees_usd_twap / W) ∧
    q.to_aura_incentives_usd
      = p.to_aura_incentives_usd + R * (p.total_earned_fees_usd_twap / W) * s ∧
    q.to_bal_incentives_usd
      = p.to_bal_incentives_usd + R * (p.total_earned_fees_usd_twap / W) * (1 - s))

/-- What stage 1 is specified to do to a chain: nothing when no pool is
eligible, otherwise the per-pool transformation `Stage1PoolSpec` pool by
pool. -/
def Stage1Spec (m s : ℚ) (pools pools' : List PoolAlloc) : Prop :=
  (poolsToReceive m pools = [] → pools' = pools) ∧
  (poolsToReceive m pools ≠ [] →
    List.Forall₂
      (Stage1PoolSpec m s (totalFeesToRedistribute m pools) (totalWeight m pools))
      pools pools')

/-- The number of pools at or above the active floor after the sweep step of
one `_handle_aura_min` invocation (`len(pools_over_min)`). -/
def overFloorCount (floor : ℚ) (pools : List PoolAlloc) : ℕ :=
  (pools.map (sweep floor)).countP fun p => decide (floor ≤ p.to_aura_incentives_usd)

/-- What one `_handle_aura_min` invocation is specified to do to a single
pool, given the chain-level debt and over-floor pool count: first the sweep
(a pool under the floor or forced to market B moves its whole aura amount to
bal), then — only when the debt is non-zero and some pool remains over the
floor — pools over the floor get `min(debt/count, bal)` moved back from bal
to aura. -/
def AuraInvocationPoolSpec (floor debt : ℚ) (n : ℕ) (p q : PoolAlloc) : Prop :=
  let p1 :=
    if p.to_aura_incentives_usd < floor ∨ p.override = some VotingPool.bal then
      { p with
        to_bal_incentives_usd := p.to_bal_incentives_usd + p.to_aura_incentives_usd
        to_aura_incentives_usd := 0 }
    else p
  ((debt = 0 ∨ n = 0) → q = p1) ∧
  (debt ≠ 0 → n ≠ 0 →
    q = if floor ≤ p1.to_aura_incentives_usd then
        { p1 with
          to_aura_incentives_usd :=
            p1.to_aura_incentives_usd + min (debt / (n : ℚ)) p1.to_bal_incentives_usd
          to_bal_incentives_usd :=
            p1.to_bal_incentives_usd - min (debt / (n : ℚ)) p1.to_bal_incentives_usd }
      else p1)

/-- What one `_handle_aura_min` invocation is specified to do to a chain. -/
def AuraInvocationSpec (floor : ℚ) (pools pools' : List PoolAlloc) : Prop :=
  List.Forall₂
    (AuraInvocationPoolSpec floor (auraDebt floor pools) (overFloorCount floor pools))
    pools pools'

/-- The discrepancy between a pool's total incentive budget and the sum of
its two market amounts. -/
def SplitDiff (p : PoolAlloc) : ℚ :=
  p.total_to_incentives_usd - (p.to_aura_incentives_usd + p.to_bal_incentives_usd)

/-- The fields `_handle_aura_min` must not touch: everything except the two
market amounts. -/
def FramePreserved (p q : PoolAlloc) : Prop :=
  q.pool_id = p.pool_id ∧ q.override = p.override ∧
  q.total_earned_fees_usd_twap = p.total_earned_fees_usd_twap ∧
  q.earned_fee_share_of_chain = p.earned_fee_share_of_chain ∧
  q.total_to_incentives_usd = p.total_to_incentives_usd ∧
  q.to_dao_usd = p.to_dao_usd ∧ q.to_vebal_usd = p.to_vebal_usd ∧
  q.redirected_incentives_usd = p.redirected_incentives_usd

/-! ## Auxiliary lemmas -/

lemma dustThreshold_pos : 0 < dustThreshold := by norm_num [dustThreshold]

lemma dustResult_nonneg (r : ℚ) : 0 ≤ dustResult r := by
  unfold dustResult
  split
  · exact le_of_lt (lt_trans dustThreshold_pos (by assumption))
  · exact le_refl 0

lemma dustResult_sub_bounds {x : ℚ} (hx : 0 ≤ x) :
    0 ≤ x - dustResult x ∧ x - dustResult x ≤ dustThreshold := by
  unfold dustResult
  split
  · simp
    exact le_of_lt dustThreshold_pos
  · constructor
    · simpa using hx
    · simp only [sub_zero]
      linarith [not_lt.mp (by assumption : ¬ dustThreshold < x)]

lemma sum_map_add_distrib {α : Type} (f g : α → ℚ) :
    ∀ l : List α, (l.map fun a => f a + g a).sum = (l.map f).sum + (l.map g).sum
  | [] => by simp
  | a :: l => by
    simp only [List.map_cons, List.sum_cons, sum_map_add_distrib f g l]
    ring

lemma sum_map_filter_partition {α : Type} (c : α → Bool) (f : α → ℚ) :
    ∀ l : List α,
      ((l.filter c).map f).sum + ((l.filter fun a => !c a).map f).sum = (l.map f).sum
  | [] => by simp
  | a :: l => by
    cases h : c a <;>
      simp [List.filter_cons, h, ← sum_map_filter_partition c f l] <;> ring

lemma sum_map_eq_zero {α : Type} (f : α → ℚ) :
    ∀ l : List α, (∀ a ∈ l, f a = 0) → (l.map f).sum = 0
  | [], _ => rfl
  | a :: l, h => by
    simp [h a (List.mem_cons_self a l),
      sum_map_eq_zero f l fun b hb => h b (List.mem_cons_of_mem a hb)]

lemma forall₂_map_self_of_mem {α β : Type} (f : α → β) (R : α → β → Prop) :
    ∀ l : List α, (∀ a ∈ l, R a (f a)) → List.Forall₂ R l (l.map f)
  | [], _ => List.Forall₂.nil
  | a :: l, h =>
    List.Forall₂.cons (h a (List.mem_cons_self a l))
      (forall₂_map_self_of_mem f R l fun b hb => h b (List.mem_cons_of_mem a hb))

lemma forall₂_of_map_eq {α β γ : Type} (f : α → γ) (g : β → γ) :
    ∀ (l₁ : List α) (l₂ : List β),
      l₁.map f = l₂.map g → List.Forall₂ (fun a b => f a = g b) l₁ l₂
  | [], [], _ => List.Forall₂.nil
  | [], _ :: _, h => by simp at h
  | _ :: _, [], h => by simp at h
  | a :: l₁, b :: l₂, h => by
    simp only [List.map_cons, List.cons.injEq] at h
    exact List.Forall₂.cons h.1 (forall₂_of_map_eq f g l₁ l₂ h.2)

lemma mem_le_sum {l : List ℚ} {a : ℚ} (ha : a ∈ l) (h : ∀ x ∈ l, 0 ≤ x) :
    a ≤ l.sum := by
  induction l with
  | nil => simp at ha
  | cons b l ih =>
    have hrest : ∀ x ∈ l, 0 ≤ x := fun x hx => h x (List.mem_cons_of_mem b hx)
    have hsum : 0 ≤ l.sum := List.sum_nonneg hrest
    rcases List.mem_cons.mp ha with rfl | hmem
    · simp only [List.sum_cons]; linarith
    · have := ih hmem hrest
      have hb : 0 ≤ b := h b (List.mem_cons_self b l)
      simp only [List.sum_cons]; linarith

/-! ## Structure of one `_handle_aura_min` invocation -/

lemma handleAuraMin_of_debt_zero {floor : ℚ} {pools : List PoolAlloc}
    (h : auraDebt floor pools = 0) :
    handleAuraMin floor pools = pools.map (sweep floor) := by
  simp only [handleAuraMin]
  rw [if_pos h]

lemma handleAuraMin_of_none_over {floor : ℚ} {pools : List PoolAlloc}
    (h : overFloorCount floor pools = 0) :
    handleAuraMin floor pools = pools.map (sweep floor) := by
  unfold overFloorCount at h
  simp [handleAuraMin, h]

lemma handleAuraMin_of_repay {floor : ℚ} {pools : List PoolAlloc}
    (hd : auraDebt floor pools ≠ 0) (hn : overFloorCount floor pools ≠ 0) :
    handleAuraMin floor pools
      = pools.map fun p =>
          repayPool (auraDebt floor pools / (overFloorCount floor pools : ℚ)) floor
            (sweep floor p) := by
  unfold overFloorCount at hn ⊢
  simp only [handleAuraMin]
  rw [if_neg hd, if_neg hn, List.map_map]
  rfl

lemma framePreserved_sweep (floor : ℚ) (p : PoolAlloc) :
    FramePreserved p (sweep floor p) := by
  unfold FramePreserved sweep
  split <;> simp

lemma framePreserved_repay (share floor : ℚ) (p : PoolAlloc) :
    FramePreserved p (repayPool share floor p) := by
  unfold FramePreserved repayPool
  split <;> simp

lemma framePreserved_trans {p q r : PoolAlloc}
    (h₁ : FramePreserved p q) (h₂ : FramePreserved q r) : FramePreserved p r := by
  obtain ⟨a₁, b₁, c₁, d₁, e₁, f₁, g₁, i₁⟩ := h₁
  obtain ⟨a₂, b₂, c₂, d₂, e₂, f₂, g₂, i₂⟩ := h₂
  exact ⟨a₂.trans a₁, b₂.trans b₁, c₂.trans c₁, d₂.trans d₁, e₂.trans e₁,
    f₂.trans f₁, g₂.trans g₁, i₂.trans i₁⟩

lemma handleAuraMin_frame (floor : ℚ) (pools : List PoolAlloc) :
    List.Forall₂ FramePreserved pools (handleAuraMin floor pools) := by
  by_cases hd : auraDebt floor pools = 0
  · rw [handleAuraMin_of_debt_zero hd]
    exact forall₂_map_self_of_mem _ _ _ fun a _ => framePreserved_sweep floor a
  · by_cases hn : overFloorCount floor pools = 0
    · rw [handleAuraMin_of_none_over hn]
      exact forall₂_map_self_of_mem _ _ _ fun a _ => framePreserved_sweep floor a
    · rw [handleAuraMin_of_repay hd hn]
      exact forall₂_map_self_of_mem _ _ _ fun a _ =>
        framePreserved_trans (framePreserved_sweep floor a)
          (framePreserved_repay _ floor (sweep floor a))

/-- C9: each stage-2 floor-enforcement invocation mutates only the two market
fields; every pool's `total_to_incentives_usd`, `to_dao_usd`, `to_vebal_usd`,
`redirected_incentives_usd`, earned-fee weight, chain share, id and override
are unchanged by `handleAuraMin`. -/
theorem handle_aura_min_mutates_only_market_fields (floor : ℚ) (pools : List PoolAlloc) :
    List.Forall₂ FramePreserved pools (handleAuraMin floor pools) :=
  handleAuraMin_frame floor pools

/-- C2: stage 2 runs `_handle_aura_min` exactly twice, first with the relaxed
floor `min_aura_incentive * (1 - 0.25)` and then with the strict floor; and
each invocation acts on every pool as specified: pools under the active floor
or forced to market B move their whole aura amount to bal (accumulating the
chain debt), and then, only when the debt is non-zero and some pool remains
over the floor, each over-floor pool gets `min(debt/count, bal)` moved back;
when the debt is zero or no pool is over the floor the invocation stops
after the sweep. -/
theorem stage2_two_invocations_spec (min_aura : ℚ) (pools : List PoolAlloc) :
    stage2 min_aura pools
      = handleAuraMin min_aura (handleAuraMin (min_aura * (1 - 25 / 100)) pools) ∧
    ∀ (floor : ℚ) (ps : List PoolAlloc),
      AuraInvocationSpec floor ps (handleAuraMin floor ps) := by
  refine ⟨rfl, fun floor ps => ?_⟩
  unfold AuraInvocationSpec
  by_cases hd : auraDebt floor ps = 0
  · rw [handleAuraMin_of_debt_zero hd]
    refine forall₂_map_self_of_mem _ _ _ fun a _ => ?_
    exact ⟨fun _ => rfl, fun hd2 _ => (hd2 hd).elim⟩
  · by_cases hn : overFloorCount floor ps = 0
    · rw [handleAuraMin_of_none_over hn]
      refine forall₂_map_self_of_mem _ _ _ fun a _ => ?_
      exact ⟨fun _ => rfl, fun _ hn2 => (hn2 hn).elim⟩
    · rw [handleAuraMin_of_repay hd hn]
      refine forall₂_map_self_of_mem _ _ _ fun a _ => ?_
      refine ⟨fun hor => ?_, fun _ _ => rfl⟩
      rcases hor with h | h
      · exact (hd h).elim
      · exact (hn h).elim

/-! ## Structure of stage 1 -/

lemma stage1_eq_cases {m s fees dao_pct vebal_pct : ℚ} {pools pools' : List PoolAlloc}
    (h : redistributeStage1 m s fees dao_pct vebal_pct pools = some pools') :
    (poolsToReceive m pools = [] ∧ pools' = pools) ∨
    (poolsToReceive m pools ≠ [] ∧ totalWeight m pools ≠ 0 ∧
      pools' = recomputeShares fees dao_pct vebal_pct
        (pools.map fun p =>
          if p.total_to_incentives_usd < m then zeroBelow p
          else receiveShare (totalFeesToRedistribute m pools) (totalWeight m pools) s p)) := by
  unfold redistributeStage1 at h
  by_cases hemp : (poolsToReceive m pools).isEmpty
  · rw [if_pos hemp] at h
    exact Or.inl ⟨List.isEmpty_iff.mp hemp, (Option.some_inj.mp h).symm⟩
  · rw [if_neg hemp] at h
    by_cases hW : totalWeight m pools = 0
    · rw [if_pos hW] at h
      cases h
    · rw [if_neg hW] at h
      refine Or.inr ⟨fun hnil => hemp ?_, hW, (Option.some_inj.mp h).symm⟩
      rw [hnil]
      rfl

lemma recomputeShares_eq_map (fees dao_pct vebal_pct : ℚ) (l : List PoolAlloc) :
    recomputeShares fees dao_pct vebal_pct l
      = l.map fun p =>
          if 0 < (l.map (·.total_to_incentives_usd)).sum then
            { p with
              earned_fee_share_of_chain :=
                p.total_to_incentives_usd / (l.map (·.total_to_incentives_usd)).sum
              to_dao_usd :=
                p.total_to_incentives_usd / (l.map (·.total_to_incentives_usd)).sum
                  * fees * dao_pct
              to_vebal_usd :=
                p.total_to_incentives_usd / (l.map (·.total_to_incentives_usd)).sum
                  * fees * vebal_pct }
          else
            { p with
              earned_fee_share_of_chain := 0
              to_dao_usd := 0
              to_vebal_usd := 0 } := rfl

/-- `recomputeShares` only touches the share, DAO and veBAL fields. -/
lemma recomputeShares_frame (fees dao_pct vebal_pct : ℚ) (l : List PoolAlloc) :
    List.Forall₂
      (fun p q => q.pool_id = p.pool_id ∧ q.override = p.override ∧
        q.total_earned_fees_usd_twap = p.total_earned_fees_usd_twap ∧
        q.total_to_incentives_usd = p.total_to_incentives_usd ∧
        q.to_aura_incentives_usd = p.to_aura_incentives_usd ∧
        q.to_bal_incentives_usd = p.to_bal_incentives_usd ∧
        q.redirected_incentives_usd = p.redirected_incentives_usd)
      l (recomputeShares fees dao_pct vebal_pct l) := by
  rw [recomputeShares_eq_map]
  refine forall₂_map_self_of_mem _ _ _ fun a _ => ?_
  split <;> simp

/-- `recomputeShares` leaves the list of incentive totals unchanged. -/
lemma recomputeShares_totals (fees dao_pct vebal_pct : ℚ) (l : List PoolAlloc) :
    (recomputeShares fees dao_pct vebal_pct l).map (·.total_to_incentives_usd)
      = l.map (·.total_to_incentives_usd) := by
  rw [recomputeShares_eq_map, List.map_map]
  refine List.map_congr_left fun a _ => ?_
  simp only [Function.comp]
  split <;> rfl

/-- C1: stage 1 zeroes every below-threshold pool (decrementing its redirect
counter by the amount removed) and distributes the removed amounts to the
eligible pools proportionally to their share of the eligible pools' earned
fees; when no pool is eligible, stage 1 leaves the chain untouched. -/
theorem stage1_redistributes_below_min_pools (m s fees dao_pct vebal_pct : ℚ)
    (pools pools' : List PoolAlloc)
    (h : redistributeStage1 m s fees dao_pct vebal_pct pools = some pools') :
    Stage1Spec m s pools pools' := by
  rcases stage1_eq_cases h with ⟨hnil, rfl⟩ | ⟨hne, hW, rfl⟩
  · exact ⟨fun _ => rfl, fun hcon => (hcon hnil).elim⟩
  · refine ⟨fun hnil => (hne hnil).elim, fun _ => ?_⟩
    rw [recomputeShares_eq_map, List.map_map]
    refine forall₂_map_self_of_mem _ _ _ fun a _ => ?_
    unfold Stage1PoolSpec
    constructor
    · intro hlt
      simp only [Function.comp]
      rw [if_pos hlt]
      split <;> simp [zeroBelow]
    · intro hge
      simp only [Function.comp]
      rw [if_neg hge]
      split <;> simp [receiveShare]

/-- C3: stage 1 conserves the chain-wide sum of incentive budgets (exactly,
in rational arithmetic). -/
theorem stage1_conserves_total_incentives (m s fees dao_pct vebal_pct : ℚ)
    (pools pools' : List PoolAlloc)
    (h : redistributeStage1 m s fees dao_pct vebal_pct pools = some pools') :
    (pools'.map (·.total_to_incentives_usd)).sum
      = (pools.map (·.total_to_incentives_usd)).sum := by
  rcases stage1_eq_cases h with ⟨_, rfl⟩ | ⟨hne, hW, rfl⟩
  · rfl
  · rw [recomputeShares_totals, List.map_map]
    have hpt : ∀ a ∈ pools,
        ((fun p : PoolAlloc => p.total_to_incentives_usd) ∘ fun p =>
            if p.total_to_incentives_usd < m then zeroBelow p
            else receiveShare (totalFeesToRedistribute m pools) (totalWeight m pools) s p) a
          = (if decide (a.total_to_incentives_usd < m) then (0 : ℚ)
             else a.total_to_incentives_usd
               + totalFeesToRedistribute m pools
                 * (a.total_earned_fees_usd_twap / totalWeight m pools)) := by
      intro a _
      simp only [Function.comp]
      by_cases hlt : a.total_to_incentives_usd < m
      · simp [hlt, zeroBelow]
      · simp [hlt, receiveShare]
    rw [List.map_congr_left hpt]
    rw [← sum_map_filter_partition (fun p => decide (p.total_to_incentives_usd < m))
      (fun a => if decide (a.total_to_incentives_usd < m) then (0 : ℚ)
        else a.total_to_incentives_usd
          + totalFeesToRedistribute m pools
            * (a.total_earned_fees_usd_twap / totalWeight m pools)) pools]
    rw [← sum_map_filter_partition (fun p => decide (p.total_to_incentives_usd < m))
      (·.total_to_incentives_usd) pools]
    have h1 : ((pools.filter fun p => decide (p.total_to_incentives_usd < m)).map
        (fun a => if decide (a.total_to_incentives_usd < m) then (0 : ℚ)
          else a.total_to_incentives_usd
            + totalFeesToRedistribute m pools
              * (a.total_earned_fees_usd_twap / totalWeight m pools))).sum = 0 := by
      refine sum_map_eq_zero _ _ fun a ha => ?_
      rw [if_pos (List.of_mem_filter ha)]
    have h2 : ((pools.filter fun p =>
          !(fun p : PoolAlloc => decide (p.total_to_incentives_usd < m)) p).map
        (fun a => if decide (a.total_to_incentives_usd < m) then (0 : ℚ)
          else a.total_to_incentives_usd
            + totalFeesToRedistribute m pools
              * (a.total_earned_fees_usd_twap / totalWeight m pools))).sum
        = ((pools.filter fun p =>
            !(fun p : PoolAlloc => decide (p.total_to_incentives_usd < m)) p).map
          (·.total_to_incentives_usd)).sum + totalFeesToRedistribute m pools := by
      rw [List.map_congr_left (fun a ha => ?_)]
      case _ =>
        rw [sum_map_add_distrib (·.total_to_incentives_usd)
          (fun a => totalFeesToRedistribute m pools / totalWeight m pools
            * a.total_earned_fees_usd_twap)]
        congr 1
        rw [List.sum_map_mul_left]
        have : ((pools.filter fun p =>
            !(fun p : PoolAlloc => decide (p.total_to_incentives_usd < m)) p).map
              (·.total_earned_fees_usd_twap)).sum = totalWeight m pools := rfl
        rw [this, div_mul_cancel₀ _ hW]
      case _ =>
        have hna : ¬ a.total_to_incentives_usd < m := by
          have := List.of_mem_filter ha
          simpa using this
        rw [if_neg (by simpa using hna)]
        ring
    rw [h1, h2]
    have hR : ((pools.filter fun p => decide (p.total_to_incentives_usd < m)).map
        (·.total_to_incentives_usd)).sum = totalFeesToRedistribute m pools := rfl
    rw [hR]
    ring

/-! ## The total = aura + bal invariant -/

lemma splitDiff_zeroBelow (p : PoolAlloc) : SplitDiff (zeroBelow p) = 0 := by
  simp [SplitDiff, zeroBelow]

lemma splitDiff_receiveShare (R W s : ℚ) (p : PoolAlloc) :
    SplitDiff (receiveShare R W s p) = SplitDiff p := by
  simp only [SplitDiff, receiveShare]
  ring

lemma splitDiff_sweep (floor : ℚ) (p : PoolAlloc) :
    SplitDiff (sweep floor p) = SplitDiff p := by
  unfold SplitDiff sweep
  split
  · simp only
    ring
  · rfl

lemma splitDiff_repay (share floor : ℚ) (p : PoolAlloc) :
    SplitDiff (repayPool share floor p) = SplitDiff p := by
  unfold SplitDiff repayPool
  split
  · simp only
    ring
  · rfl

lemma splitDiff_recompute (fees dao_pct vebal_pct : ℚ) (l : List PoolAlloc) :
    ∀ q ∈ recomputeShares fees dao_pct vebal_pct l, ∃ p ∈ l, SplitDiff q = SplitDiff p := by
  intro q hq
  rw [recomputeShares_eq_map] at hq
  obtain ⟨p, hp, rfl⟩ := List.mem_map.mp hq
  refine ⟨p, hp, ?_⟩
  split <;> simp [SplitDiff]

/-- C4: `total_to_incentives_usd = to_aura_incentives_usd +
to_bal_incentives_usd` holds within rounding throughout the pipeline: the
initial dust-guarded split satisfies it up to `2 * dustThreshold`, and both
stage 1 and each stage-2 invocation preserve any such bound pool by pool. -/
theorem total_equals_sum_of_markets_invariant :
    (∀ total s : ℚ, 0 ≤ total → 0 ≤ s → s ≤ 1 →
      |total - (to_aura_incentives_usd total s + to_bal_incentives_usd total s)|
        ≤ 2 * dustThreshold) ∧
    (∀ (m s fees dao_pct vebal_pct ε : ℚ) (pools pools' : List PoolAlloc),
      redistributeStage1 m s fees dao_pct vebal_pct pools = some pools' →
      (∀ p ∈ pools, |SplitDiff p| ≤ ε) → ∀ q ∈ pools', |SplitDiff q| ≤ ε) ∧
    (∀ (floor ε : ℚ) (pools : List PoolAlloc),
      (∀ p ∈ pools, |SplitDiff p| ≤ ε) →
      ∀ q ∈ handleAuraMin floor pools, |SplitDiff q| ≤ ε) := by
  refine ⟨?_, ?_, ?_⟩
  · intro total s h0 hs0 hs1
    unfold to_aura_incentives_usd to_bal_incentives_usd
    by_cases hlt : total < dustThreshold
    · rw [if_pos hlt, if_pos hlt]
      rw [abs_of_nonneg (by linarith)]
      linarith [dustThreshold_pos]
    · rw [if_neg hlt, if_neg hlt]
      have hx : 0 ≤ total * s := mul_nonneg h0 hs0
      have hy : 0 ≤ total * (1 - s) := mul_nonneg h0 (by linarith)
      obtain ⟨ha1, ha2⟩ := dustResult_sub_bounds hx
      obtain ⟨hb1, hb2⟩ := dustResult_sub_bounds hy
      have hsum : total = total * s + total * (1 - s) := by ring
      rw [abs_le]
      constructor
      · nlinarith [dustThreshold_pos]
      · nlinarith [dustThreshold_pos]
  · intro m s fees dao_pct vebal_pct ε pools pools' h hb q hq
    rcases stage1_eq_cases h with ⟨_, rfl⟩ | ⟨_, _, rfl⟩
    · exact hb q hq
    · obtain ⟨x, hx, hqx⟩ := splitDiff_recompute _ _ _ _ q hq
      rw [hqx]
      obtain ⟨a, ha, rfl⟩ := List.mem_map.mp hx
      by_cases hlt : a.total_to_incentives_usd < m
      · rw [if_pos hlt, splitDiff_zeroBelow]
        simpa using le_trans (abs_nonneg _) (hb a ha)
      · rw [if_neg hlt, splitDiff_receiveShare]
        exact hb a ha
  · intro floor ε pools hb q hq
    by_cases hd : auraDebt floor pools = 0
    · rw [handleAuraMin_of_debt_zero hd] at hq
      obtain ⟨a, ha, rfl⟩ := List.mem_map.mp hq
      rw [splitDiff_sweep]
      exact hb a ha
    · by_cases hn : overFloorCount floor pools = 0
      · rw [handleAuraMin_of_none_over hn] at hq
        obtain ⟨a, ha, rfl⟩ := List.mem_map.mp hq
        rw [splitDiff_sweep]
        exact hb a ha
      · rw [handleAuraMin_of_repay hd hn] at hq
        obtain ⟨a, ha, rfl⟩ := List.mem_map.mp hq
        rw [splitDiff_repay, splitDiff_sweep]
        exact hb a ha

/-! ## Overrides forcing market B -/

lemma sweep_aura_of_bal {floor : ℚ} {p : PoolAlloc}
    (hov : p.override = some VotingPool.bal) :
    (sweep floor p).to_aura_incentives_usd = 0 := by
  unfold sweep
  rw [if_pos (Or.inr hov)]

lemma handleAuraMin_forced_zero {floor : ℚ} (hf : 0 < floor) {pools : List PoolAlloc}
    {i : ℕ} (hi : i < pools.length) (hi2 : i < (handleAuraMin floor pools).length)
    (hov : pools[i].override = some VotingPool.bal) :
    (handleAuraMin floor pools)[i].to_aura_incentives_usd = 0 := by
  by_cases hd : auraDebt floor pools = 0
  · simp only [handleAuraMin_of_debt_zero hd, List.getElem_map]
    exact sweep_aura_of_bal hov
  · by_cases hn : overFloorCount floor pools = 0
    · simp only [handleAuraMin_of_none_over hn, List.getElem_map]
      exact sweep_aura_of_bal hov
    · simp only [handleAuraMin_of_repay hd hn, List.getElem_map]
      have hz : (sweep floor pools[i]).to_aura_incentives_usd = 0 :=
        sweep_aura_of_bal hov
      unfold repayPool
      have hcond : ¬ floor ≤ (sweep floor pools[i]).to_aura_incentives_usd := by
        rw [hz]
        exact not_le.mpr hf
      rw [if_neg hcond]
      exact hz

lemma handleAuraMin_length (floor : ℚ) (pools : List PoolAlloc) :
    (handleAuraMin floor pools).length = pools.length :=
  (handleAuraMin_frame floor pools).length_eq.symm

lemma handleAuraMin_override (floor : ℚ) (pools : List PoolAlloc)
    {i : ℕ} (hi : i < pools.length) (hi2 : i < (handleAuraMin floor pools).length) :
    (handleAuraMin floor pools)[i].override = pools[i].override := by
  have h := (List.forall₂_iff_get.mp (handleAuraMin_frame floor pools)).2 i hi hi2
  simpa [List.get_eq_getElem] using h.2.1

lemma stage1_length {m s fees dao_pct vebal_pct : ℚ} {pools pools' : List PoolAlloc}
    (h : redistributeStage1 m s fees dao_pct vebal_pct pools = some pools') :
    pools'.length = pools.length := by
  rcases stage1_eq_cases h with ⟨_, rfl⟩ | ⟨_, _, rfl⟩
  · rfl
  · simp [recomputeShares_eq_map]

lemma stage1_override {m s fees dao_pct vebal_pct : ℚ} {pools pools' : List PoolAlloc}
    (h : redistributeStage1 m s fees dao_pct vebal_pct pools = some pools')
    {i : ℕ} (hi : i < pools.length) (hi2 : i < pools'.length) :
    pools'[i].override = pools[i].override := by
  rcases stage1_eq_cases h with ⟨_, rfl⟩ | ⟨_, _, rfl⟩
  · rfl
  · simp only [recomputeShares_eq_map, List.map_map, List.getElem_map, Function.comp]
    split
    · by_cases hlt : pools[i].total_to_incentives_usd < m <;>
        simp [hlt, zeroBelow, receiveShare]
    · by_cases hlt : pools[i].total_to_incentives_usd < m <;>
        simp [hlt, zeroBelow, receiveShare]

/-- C8: a pool whose override forces market B ends the whole pipeline (stage 1
followed by both stage-2 invocations) with `to_aura_incentives_usd = 0`,
whatever its split was before redistribution and whatever stage 1 moved into
it, provided the configured `min_aura_incentive` floor is positive. -/
theorem override_forces_zero_aura (m s fees dao_pct vebal_pct min_aura : ℚ)
    (pools pools' : List PoolAlloc) (hpos : 0 < min_aura)
    (h : redistributeFees m s fees dao_pct vebal_pct min_aura pools = some pools')
    (i : ℕ) (hi : i < pools.length) (hi2 : i < pools'.length)
    (hov : pools[i].override = some VotingPool.bal) :
    pools'[i].to_aura_incentives_usd = 0 := by
  unfold redistributeFees at h
  obtain ⟨mid, hmid, hst⟩ := Option.map_eq_some'.mp h
  have hlen1 : mid.length = pools.length := stage1_length hmid
  have him : i < mid.length := hlen1 ▸ hi
  have hovm : mid[i].override = some VotingPool.bal :=
    (stage1_override hmid hi him).trans hov
  have him1 : i < (handleAuraMin (min_aura * (1 - 25 / 100)) mid).length := by
    rw [handleAuraMin_length]
    exact him
  have hovm1 : (handleAuraMin (min_aura * (1 - 25 / 100)) mid)[i].override
      = some VotingPool.bal :=
    (handleAuraMin_override _ mid him him1).trans hovm
  have hi2' : i < (handleAuraMin min_aura
      (handleAuraMin (min_aura * (1 - 25 / 100)) mid)).length := by
    rw [handleAuraMin_length]
    exact him1
  have := handleAuraMin_forced_zero hpos him1 hi2' hovm1
  subst hst
  simpa [stage2] using this

/-! ## Earnings calculator: dict semantics and token matching -/

lemma dictInsert_eq_append (kv : ℕ × ℚ) :
    ∀ (acc : List (ℕ × ℚ)), kv.1 ∉ acc.map Prod.fst → dictInsert acc kv = acc ++ [kv]
  | [], _ => rfl
  | (k, v) :: rest, h => by
    simp only [List.map_cons, List.mem_cons, not_or] at h
    unfold dictInsert
    rw [if_neg fun he => h.1 he.symm, dictInsert_eq_append kv rest h.2]
    rfl

lemma foldl_dictInsert_append :
    ∀ (l acc : List (ℕ × ℚ)), ((acc ++ l).map Prod.fst).Nodup →
      List.foldl dictInsert acc l = acc ++ l
  | [], acc, _ => by simp
  | kv :: l, acc, h => by
    have hna : kv.1 ∉ acc.map Prod.fst := by
      rw [List.map_append, List.nodup_append] at h
      intro hmem
      exact h.2.2 hmem (by simp)
    rw [List.foldl_cons, dictInsert_eq_append kv acc hna,
      foldl_dictInsert_append l (acc ++ [kv]) (by simpa using h)]
    simp

/-- A Python dict built from pairs with pairwise distinct keys keeps exactly
those pairs, in order. -/
lemma dictBuild_of_nodup {l : List (ℕ × ℚ)} (h : (l.map Prod.fst).Nodup) :
    dictBuild l = l := by
  have := foldl_dictInsert_append l [] (by simpa using h)
  simpa [dictBuild] using this

/-- C5 (amended): when the start and end snapshots cover the same distinct
token addresses and the price list covers the same addresses, the computed
total equals the dust-guarded LP-fee term plus the claimed sum of strictly
positive per-token fee deltas times their TWAP prices, each token matched by
address. -/
theorem earned_fees_formula_with_dust_guard (bpt_price : ℚ)
    (tokens_price : List TWAPResult) (s e : PoolSnapshot)
    (haddr : (sortTokens s.tokens).map TokenFee.address
           = (sortTokens e.tokens).map TokenFee.address)
    (hnd : ((sortTokens e.tokens).map TokenFee.address).Nodup)
    (hpr : (sortPrices tokens_price).map TWAPResult.address
         = (sortTokens e.tokens).map TokenFee.address) :
    total_earned_fees_usd bpt_price tokens_price s e
      = earned_bpt_fee_usd bpt_price s e
        + (List.map
            (fun x => if 0 < x.1.2.paidProtocolFees - x.1.1.paidProtocolFees
              then (x.1.2.paidProtocolFees - x.1.1.paidProtocolFees) * x.2.twap_price
              else 0)
            (((sortTokens s.tokens).zip (sortTokens e.tokens)).zip
              (sortPrices tokens_price))).sum := by
  have lenAB : (sortTokens s.tokens).length = (sortTokens e.tokens).length := by
    have := congrArg List.length haddr
    simpa using this
  have hkeys : (tokenFeePairs s e).map Prod.fst
      = (sortTokens e.tokens).map TokenFee.address := by
    unfold tokenFeePairs
    rw [List.map_map]
    rw [show (Prod.fst ∘ fun se : TokenFee × TokenFee =>
        (se.2.address, se.2.paidProtocolFees - se.1.paidProtocolFees))
      = (TokenFee.address ∘ Prod.snd) from rfl]
    rw [← List.map_map, List.map_snd_zip _ _ (le_of_eq lenAB.symm)]
  have hdict : earned_tokens_fee s e = tokenFeePairs s e :=
    dictBuild_of_nodup (by rw [hkeys]; exact hnd)
  unfold total_earned_fees_usd
  congr 1
  unfold earned_tokens_fee_usd
  rw [hdict]
  unfold tokenFeePairs
  rw [List.map_map]
  rw [show (Prod.snd ∘ fun se : TokenFee × TokenFee =>
      (se.2.address, se.2.paidProtocolFees - se.1.paidProtocolFees))
    = (fun se : TokenFee × TokenFee =>
        se.2.paidProtocolFees - se.1.paidProtocolFees) from rfl]
  rw [List.zip_map_left, List.map_map]
  refine congrArg List.sum (List.map_congr_left fun x _ => ?_)
  simp only [Function.comp, Prod.map]
  split
  · exact mul_comm _ _
  · rfl

/-- C5 (counterexample): on a snapshot pair with a negative LP-fee delta the
implementation returns 0 for the LP term (dust guard) while the
specification's unconditional formula yields a negative value. -/
theorem earned_fees_spec_formula_counterexample :
    total_earned_fees_usd 1 [] ⟨1, []⟩ ⟨0, []⟩
      ≠ claimedTotalEarnedFeesUsd 1 [] ⟨1, []⟩ ⟨0, []⟩ := by
  norm_num [total_earned_fees_usd, claimedTotalEarnedFeesUsd, earned_bpt_fee_usd,
    earned_bpt_fee, earned_tokens_fee_usd, earned_tokens_fee, tokenFeePairs,
    dictBuild, sortTokens, sortPrices, List.insertionSort, dustThreshold]

/-- C6 (amended): when the two snapshots cover the same token multiset, the
sorted-and-zipped pairing used by `earned_tokens_fee` matches tokens by
address. -/
theorem token_matching_by_address (s e : PoolSnapshot)
    (h : (sortTokens s.tokens).map TokenFee.address
       = (sortTokens e.tokens).map TokenFee.address) :
    List.Forall₂ (fun a b => a.address = b.address)
      (sortTokens s.tokens) (sortTokens e.tokens) :=
  forall₂_of_map_eq TokenFee.address TokenFee.address _ _ h

/-- C6 (counterexample): on snapshots with different token sets the
computation silently truncates (`zip`) and produces a result — the end
snapshot's second token is dropped and no error of any kind is raised. -/
theorem token_set_mismatch_silent_result :
    sameTokenSet ⟨0, [⟨1, 5⟩]⟩ ⟨0, [⟨1, 7⟩, ⟨2, 9⟩]⟩ = false ∧
    earned_tokens_fee ⟨0, [⟨1, 5⟩]⟩ ⟨0, [⟨1, 7⟩, ⟨2, 9⟩]⟩ = [(1, 2)] := by
  constructor
  · norm_num [sameTokenSet, sortTokens, List.insertionSort, List.orderedInsert]
  · norm_num [earned_tokens_fee, tokenFeePairs, dictBuild, dictInsert, sortTokens,
      List.insertionSort, List.orderedInsert]

/-- C7 (amended): the share computation never divides by zero — it returns
`some 0` both when the pool's own earned fees are dust and (a fortiori) when
the chain total is zero — and equals the plain ratio whenever the pool's
fees reach the dust threshold and the ratio exceeds it. -/
theorem earned_fee_share_guarded (totals : List ℚ) (t : ℚ)
    (hnn : ∀ x ∈ totals, 0 ≤ x) (ht : t ∈ totals) :
    ∃ v, earned_fee_share_of_chain_usd t totals.sum = some v ∧
      (totals.sum = 0 → v = 0) ∧
      (dustThreshold ≤ t → dustThreshold < t / totals.sum → v = t / totals.sum) ∧
      0 ≤ v := by
  by_cases hlt : t < dustThreshold
  · refine ⟨0, ?_, fun _ => rfl, fun h1 _ => absurd hlt (not_lt.mpr h1), le_refl 0⟩
    unfold earned_fee_share_of_chain_usd
    rw [if_pos hlt]
  · have hsum : totals.sum ≠ 0 := by
      intro h0
      have hts : t ≤ totals.sum := mem_le_sum ht hnn
      rw [h0] at hts
      have h1 : dustThreshold ≤ t := not_lt.mp hlt
      linarith [dustThreshold_pos]
    refine ⟨dustResult (t / totals.sum), ?_, fun h0 => absurd h0 hsum,
      fun _ hgt => ?_, dustResult_nonneg _⟩
    · unfold earned_fee_share_of_chain_usd
      rw [if_neg hlt, if_neg hsum]
    · unfold dustResult
      rw [if_pos hgt]

/-- C7 (counterexample): a pool whose ratio of earned fees to the chain total
is positive but at most the dust threshold gets share `0`, not the ratio the
claim states. -/
theorem earned_fee_share_dust_counterexample :
    earned_fee_share_of_chain_usd 1 (1 + 10 ^ 21) = some 0 ∧
    (1 : ℚ) / (1 + 10 ^ 21) ≠ 0 := by
  constructor
  · norm_num [earned_fee_share_of_chain_usd, dustResult, dustThreshold]
  · norm_num

/-- C10: every dust-guarded per-pool quantity is non-negative, and the guard
maps any result below the `1E-20` threshold — negative results included — to
exactly zero. -/
theorem allocation_quantities_nonneg :
    (∀ r : ℚ, r < dustThreshold → dustResult r = 0) ∧
    (∀ (bp : ℚ) (s e : PoolSnapshot), 0 ≤ earned_bpt_fee_usd bp s e) ∧
    (∀ t c v : ℚ, earned_fee_share_of_chain_usd t c = some v → 0 ≤ v) ∧
    (∀ (cfg : FeeConfig) (fees share : ℚ), 0 ≤ total_to_incentives_usd cfg fees share) ∧
    (∀ total s : ℚ, 0 ≤ to_aura_incentives_usd total s) ∧
    (∀ total s : ℚ, 0 ≤ to_bal_incentives_usd total s) ∧
    (∀ (cfg : FeeConfig) (fees share : ℚ), 0 ≤ to_dao_usd cfg fees share) ∧
    (∀ (cfg : FeeConfig) (fees share : ℚ), 0 ≤ to_vebal_usd cfg fees share) := by
  refine ⟨?_, ?_, ?_, ?_, ?_, ?_, ?_, ?_⟩
  · intro r h
    unfold dustResult
    rw [if_neg (not_lt.mpr h.le)]
  · intro bp s e
    unfold earned_bpt_fee_usd
    split
    · exact le_refl 0
    · exact dustResult_nonneg _
  · intro t c v h
    unfold earned_fee_share_of_chain_usd at h
    by_cases h1 : t < dustThreshold
    · rw [if_pos h1] at h
      obtain rfl : (0 : ℚ) = v := Option.some_inj.mp h
      exact le_refl 0
    · rw [if_neg h1] at h
      by_cases h2 : c = 0
      · rw [if_pos h2] at h
        cases h
      · rw [if_neg h2] at h
        obtain rfl : dustResult (t / c) = v := Option.some_inj.mp h
        exact dustResult_nonneg _
  · intro cfg fees share
    unfold total_to_incentives_usd
    split
    · exact le_refl 0
    · exact dustResult_nonneg _
  · intro total s
    unfold to_aura_incentives_usd
    split
    · exact le_refl 0
    · exact dustResult_nonneg _
  · intro total s
    unfold to_bal_incentives_usd
    split
    · exact le_refl 0
    · exact dustResult_nonneg _
  · intro cfg fees share
    unfold to_dao_usd
    split
    · exact le_refl 0
    · exact dustResult_nonneg _
  · intro cfg fees share
    unfold to_vebal_usd
    split
    · exact le_refl 0
    · exact dustResult_nonneg _

/-! ## Witnesses: the theorems with hypotheses evaluated at concrete inputs -/

theorem stage1_redistributes_below_min_pools_witness :
    Stage1Spec 5 (1 / 2)
      [⟨1, none, 100, 0, 10, 4, 6, 0, 0, 0⟩, ⟨2, none, 50, 0, 2, 1, 1, 0, 0, 0⟩]
      [⟨1, none, 100, 1, 12, 5, 7, 10, 10, 2⟩, ⟨2, none, 50, 0, 0, 0, 0, 0, 0, -2⟩] :=
  stage1_redistributes_below_min_pools 5 (1 / 2) 100 (1 / 10) (1 / 10) _ _ (by
    norm_num [redistributeStage1, poolsToReceive, poolsToRedistribute, totalWeight,
      totalFeesToRedistribute, recomputeShares, zeroBelow, receiveShare])

theorem stage2_two_invocations_spec_witness :
    AuraInvocationSpec 2 [⟨1, none, 0, 0, 10, 1, 9, 0, 0, 0⟩]
      (handleAuraMin 2 [⟨1, none, 0, 0, 10, 1, 9, 0, 0, 0⟩]) :=
  (stage2_two_invocations_spec 0 []).2 2 [⟨1, none, 0, 0, 10, 1, 9, 0, 0, 0⟩]

theorem stage1_conserves_total_incentives_witness :
    (([⟨1, none, 100, 1, 12, 5, 7, 10, 10, 2⟩,
       ⟨2, none, 50, 0, 0, 0, 0, 0, 0, -2⟩] : List PoolAlloc).map
        (·.total_to_incentives_usd)).sum
      = (([⟨1, none, 100, 0, 10, 4, 6, 0, 0, 0⟩,
           ⟨2, none, 50, 0, 2, 1, 1, 0, 0, 0⟩] : List PoolAlloc).map
          (·.total_to_incentives_usd)).sum :=
  stage1_conserves_total_incentives 5 (1 / 2) 100 (1 / 10) (1 / 10) _ _ (by
    norm_num [redistributeStage1, poolsToReceive, poolsToRedistribute, totalWeight,
      totalFeesToRedistribute, recomputeShares, zeroBelow, receiveShare])

theorem total_equals_sum_of_markets_invariant_witness :
    |(1 : ℚ) - (to_aura_incentives_usd 1 (1 / 2) + to_bal_incentives_usd 1 (1 / 2))|
        ≤ 2 * dustThreshold ∧
    (∀ q ∈ ([⟨1, none, 100, 1, 12, 5, 7, 10, 10, 2⟩,
        ⟨2, none, 50, 0, 0, 0, 0, 0, 0, -2⟩] : List PoolAlloc), |SplitDiff q| ≤ 1) ∧
    (∀ q ∈ handleAuraMin 2 [⟨1, none, 0, 0, 10, 1, 9, 0, 0, 0⟩], |SplitDiff q| ≤ 1) :=
  ⟨total_equals_sum_of_markets_invariant.1 1 (1 / 2) (by norm_num) (by norm_num)
      (by norm_num),
   total_equals_sum_of_markets_invariant.2.1 5 (1 / 2) 100 (1 / 10) (1 / 10) 1
      [⟨1, none, 100, 0, 10, 4, 6, 0, 0, 0⟩, ⟨2, none, 50, 0, 2, 1, 1, 0, 0, 0⟩]
      [⟨1, none, 100, 1, 12, 5, 7, 10, 10, 2⟩, ⟨2, none, 50, 0, 0, 0, 0, 0, 0, -2⟩]
      (by norm_num [redistributeStage1, poolsToReceive, poolsToRedistribute, totalWeight,
        totalFeesToRedistribute, recomputeShares, zeroBelow, receiveShare])
      (by intro p hp; fin_cases hp <;> norm_num [SplitDiff]),
   total_equals_sum_of_markets_invariant.2.2 2 1 [⟨1, none, 0, 0, 10, 1, 9, 0, 0, 0⟩]
      (by intro p hp; fin_cases hp; norm_num [SplitDiff])⟩

theorem earned_fees_formula_with_dust_guard_witness :
    total_earned_fees_usd 1 [⟨1, 2⟩] ⟨0, [⟨1, 3⟩]⟩ ⟨0, [⟨1, 10⟩]⟩
      = earned_bpt_fee_usd 1 ⟨0, [⟨1, 3⟩]⟩ ⟨0, [⟨1, 10⟩]⟩
        + (List.map
            (fun x => if 0 < x.1.2.paidProtocolFees - x.1.1.paidProtocolFees
              then (x.1.2.paidProtocolFees - x.1.1.paidProtocolFees) * x.2.twap_price
              else 0)
            (((sortTokens (PoolSnapshot.tokens ⟨0, [⟨1, 3⟩]⟩)).zip
                (sortTokens (PoolSnapshot.tokens ⟨0, [⟨1, 10⟩]⟩))).zip
              (sortPrices [⟨1, 2⟩]))).sum :=
  earned_fees_formula_with_dust_guard 1 [⟨1, 2⟩] ⟨0, [⟨1, 3⟩]⟩ ⟨0, [⟨1, 10⟩]⟩
    (by norm_num [sortTokens, List.insertionSort])
    (by norm_num [sortTokens, List.insertionSort])
    (by norm_num [sortTokens, sortPrices, List.insertionSort])

theorem token_matching_by_address_witness :
    List.Forall₂ (fun a b => a.address = b.address)
      (sortTokens (PoolSnapshot.tokens ⟨0, [⟨2, 1⟩, ⟨1, 4⟩]⟩))
      (sortTokens (PoolSnapshot.tokens ⟨0, [⟨1, 6⟩, ⟨2, 3⟩]⟩)) :=
  token_matching_by_address ⟨0, [⟨2, 1⟩, ⟨1, 4⟩]⟩ ⟨0, [⟨1, 6⟩, ⟨2, 3⟩]⟩
    (by norm_num [sortTokens, List.insertionSort, List.orderedInsert])

theorem earned_fee_share_guarded_witness :
    ∃ v, earned_fee_share_of_chain_usd 2 ([2] : List ℚ).sum = some v ∧
      (([2] : List ℚ).sum = 0 → v = 0) ∧
      (dustThreshold ≤ 2 → dustThreshold < 2 / ([2] : List ℚ).sum →
        v = 2 / ([2] : List ℚ).sum) ∧
      0 ≤ v :=
  earned_fee_share_guarded [2] 2 (by norm_num) (by norm_num)

theorem override_forces_zero_aura_witness :
    ([⟨7, some VotingPool.bal, 1, 1, 10, 0, 10, 10, 10, 0⟩] :
        List PoolAlloc)[0].to_aura_incentives_usd = 0 :=
  override_forces_zero_aura 5 (1 / 2) 100 (1 / 10) (1 / 10) 2
    [⟨7, some VotingPool.bal, 1, 0, 10, 4, 6, 0, 0, 0⟩]
    [⟨7, some VotingPool.bal, 1, 1, 10, 0, 10, 10, 10, 0⟩]
    (by norm_num)
    (by norm_num [redistributeFees, redistributeStage1, poolsToReceive,
      poolsToRedistribute, totalWeight, totalFeesToRedistribute, recomputeShares,
      zeroBelow, receiveShare, stage2, handleAuraMin, sweep, repayPool, auraDebt,
      overFloorCount])
    0 (by norm_num) (by norm_num) rfl

theorem allocation_quantities_nonneg_witness :
    dustResult (-1) = 0 :=
  allocation_quantities_nonneg.1 (-1) (by norm_num [dustThreshold])

end FeeAlloc
